import Mathlib

/-!
Verification of the conflearn pipeline
(`src/course/week3/conflearn_project/flow.py`, class `TrainIdentifyReview`).

We shallowly embed the pipeline's data flow: the k-fold split performed by
`sklearn.model_selection.KFold` (with `shuffle=False`, as in the source), the
scatter-write of out-of-sample probabilities in the `crossval` step, the
probability-matrix construction and label-flip loop of the `inspect` step, the
record construction of the `review` step, the dataset re-slicing of the
`retrain_retest` step, and the step graph of the flow itself.  Probabilities
are embedded as exact rationals.
-/

namespace ConflearnFlow
/-! ## KFold (sklearn `KFold(n_splits=k)`, `shuffle=False`)

`KFold` with `shuffle=False` splits the index range `0..n-1` into `k`
contiguous blocks: the first `n % k` folds have size `n / k + 1`, the rest
have size `n / k`.  The test indices of fold `j` are the `j`-th block; the
train indices are all remaining indices, in increasing order. -/

/-- Sizes of the `k` folds over `n` samples: the first `n % k` folds get one
extra element. -/
def foldSizes (n k : Nat) : List Nat :=
  (List.range k).map (fun j => n / k + if j < n % k then 1 else 0)

/-- Split a list into consecutive chunks of the given sizes. -/
def splitBySizes : List Nat → List Nat → List (List Nat)
  | [], _ => []
  | s :: ss, xs => xs.take s :: splitBySizes ss (xs.drop s)

/-- The list of test-index blocks produced by `KFold(n_splits=k).split` on
`n` samples. -/
def kfoldTestSets (n k : Nat) : List (List Nat) :=
  splitBySizes (foldSizes n k) (List.range n)

/-- The train indices paired with a given test block: the complement of the
block inside `0..n-1`, in increasing order. -/
def kfoldTrainSet (n : Nat) (test : List Nat) : List Nat :=
  (List.range n).filter (fun i => decide (i ∉ test))

/-! ## The `crossval` step's scatter write

`probs = np.zeros(len(X))`, then for each fold `probs[test_index] = probs_`.
The per-row predicted value is abstracted as a function `f` of the row index
(each row is predicted by the single fold holding it out). -/

/-- Write `f i` at position `i` for each `i` in `idxs`, in order (numpy
fancy-index assignment `probs[test_index] = probs_`). -/
def writeIdxs (f : Nat → α) (arr : List α) (idxs : List Nat) : List α :=
  idxs.foldl (fun a i => a.set i (f i)) arr

/-- The final `probs` array of the `crossval` step: start from
`np.zeros(n)` (an array of `d`) and scatter-write each fold's predictions. -/
def crossval_probs (n k : Nat) (f : Nat → α) (d : α) : List α :=
  (kfoldTestSets n k).foldl (writeIdxs f) (List.replicate n d)

/-! ## The `inspect` step -/

/-- The label flip performed on each flagged row:
`self.all_df.loc[index, 'label'] = 1 - label`. -/
def flipLabel (label : Int) : Int := 1 - label

/-- The two-column probability matrix built by `inspect`:
`np.stack([1 - prob, prob]).T` — row `i` is `(1 - pᵢ, pᵢ)`. -/
def probMatrix (probs : List ℚ) : List (ℚ × ℚ) :=
  probs.map (fun p => (1 - p, p))

/-- Self-confidence of a row: the predicted probability the matrix row
assigns to the row's given label. -/
def selfConfidence (label : Int) (probRow : ℚ × ℚ) : ℚ :=
  if label = 1 then probRow.2 else probRow.1

/-- Modelled from the spec: `cleanlab.filter.find_label_issues(labels, prob,
return_indices_ranked_by="self_confidence")` is an external library routine
whose code is not part of this repository.  Per the spec (§4.2 and §8), it
returns the indices of rows flagged as likely mislabeled — rows whose
self-confidence falls below a detector threshold — ordered by ascending
self-confidence (most likely mislabeled first). -/
def find_label_issues (labels : List Int) (prob : List (ℚ × ℚ))
    (threshold : ℚ) : List Nat :=
  let conf := fun i => selfConfidence (labels.getD i 0) (prob.getD i (0, 0))
  ((List.range labels.length).filter
      (fun i => decide (conf i < threshold))).insertionSort
    (fun i j => conf i ≤ conf j)

/-! ## The dataframe rows and the `review` step -/

/-- One row of the combined dataframe `all_df`: the review text, the
(possibly flipped) binary label, and the `prob` column added by `crossval`. -/
structure Row where
  review : String
  label : Int
  prob : ℚ
deriving Repr, DecidableEq

def defaultRow : Row := { review := "", label := 0, prob := 0 }

structure ReviewValue where
  choices : List String
deriving Repr, DecidableEq

structure ReviewResultEntry where
  value : ReviewValue
  id : String
  from_name : String
  to_name : String
  type : String
deriving Repr, DecidableEq

structure ReviewPrediction where
  result : List ReviewResultEntry
deriving Repr, DecidableEq

/-- One LabelStudio pre-annotation record: `{'data': {'text': ...},
'predictions': [{'result': [...]}]}`. -/
structure ReviewRecord where
  text : String
  predictions : List ReviewPrediction
deriving Repr, DecidableEq

/-- The record the `review` loop body builds for one flagged index. -/
def reviewRecord (all_df : List Row) (index : Nat) : ReviewRecord :=
  let row := all_df.getD index defaultRow
  { text := row.review
    predictions := [{ result := [{
        value := { choices := [if row.label = 1 then "Positive"
                               else "Negative"] }
        id := "data-" ++ toString index
        from_name := "sentiment"
        to_name := "text"
        type := "choices" }] }] }

/-- The `review` step: `outputs = []`, then one appended record per issue
index, in ranking order. -/
def review (all_df : List Row) (issues : List Nat) : List ReviewRecord :=
  issues.foldl (fun outputs index => outputs ++ [reviewRecord all_df index]) []

/-- The `choices` field of a record (first prediction, first result). -/
def recordChoices (rec : ReviewRecord) : List String :=
  match rec.predictions with
  | [] => []
  | p :: _ =>
    match p.result with
    | [] => []
    | e :: _ => e.value.choices

/-! ## The `retrain_retest` step's slicing

`dm.train_dataset.data = self.all_df.iloc[0:train_size]`,
`dm.dev_dataset.data = self.all_df.iloc[train_size:(train_size+dev_size)]`,
`dm.test_dataset.data = self.all_df.iloc[(train_size+dev_size):]`. -/

/-- Slice `all_df.iloc[0:train_size]`. -/
def retrainTrain (all_df : List α) (train_size : Nat) : List α :=
  all_df.take train_size

/-- Slice `all_df.iloc[train_size:(train_size+dev_size)]`. -/
def retrainDev (all_df : List α) (train_size dev_size : Nat) : List α :=
  (all_df.drop train_size).take dev_size

/-- Slice `all_df.iloc[(train_size+dev_size):]`. -/
def retrainTest (all_df : List α) (train_size dev_size : Nat) : List α :=
  all_df.drop (train_size + dev_size)

/-! ## The step graph of `TrainIdentifyReview`

Each `@step` method ends in exactly one `self.next(...)` call; `end` has
none.  `stageNext` is read off from those calls. -/

inductive Stage
  | start
  | init_system
  | train_test
  | crossval
  | inspect
  | review
  | retrain_retest
  | end_
deriving DecidableEq, Repr, Fintype

/-- The single `self.next(...)` transition of each step (`end` terminates). -/
def stageNext : Stage → Option Stage
  | .start => some .init_system
  | .init_system => some .train_test
  | .train_test => some .crossval
  | .crossval => some .inspect
  | .inspect => some .review
  | .review => some .retrain_retest
  | .retrain_retest => some .end_
  | .end_ => none

/-- The documented linear order of the pipeline. -/
def pipelineOrder : List Stage :=
  [.start, .init_system, .train_test, .crossval, .inspect, .review,
   .retrain_retest, .end_]

/-! ## Seeding (`start`) and reproducibility -/

/-- The process-wide RNG state: python `random`, `numpy.random`, and torch. -/
structure RngState where
  pythonState : Nat
  numpyState : Nat
  torchState : Nat
deriving Repr, DecidableEq

/-- The `start` step: `random.seed(42); np.random.seed(42);
torch.manual_seed(42)`.  The RNG state after `start` is the fixed seeded
triple, whatever it was before. -/
def startStep (_pre : RngState) : RngState :=
  { pythonState := 42, numpyState := 42, torchState := 42 }

/-- A call to one of the process-wide seeding functions. -/
inductive SeedCall
  | python (seed : Nat)
  | numpy (seed : Nat)
  | torch (seed : Nat)
deriving Repr, DecidableEq

/-- The seeding calls each step body performs: only `start` seeds
(no other step body in `flow.py` calls `random.seed`, `np.random.seed`,
or `torch.manual_seed`). -/
def seedCalls : Stage → List SeedCall
  | .start => [.python 42, .numpy 42, .torch 42]
  | _ => []

/-- A pipeline run: everything after `start` is a function `rest` of the
RNG state `start` established (plus the fixed configuration and input data,
which `rest` closes over). -/
def runPipeline (rest : RngState → α) (r0 : RngState) : α :=
  rest (startStep r0)

/-! ## Pipeline state carried between steps, and the configuration frame -/

/-- The configuration record (`load_config(self.config_path)`): the fields
the flow reads (`config.train.ckpt_dir`, `config.train.optimizer.batch_size`,
`config.train.optimizer.max_epochs`, `config.review.save_dir`). -/
structure Config where
  ckpt_dir : String
  batch_size : Nat
  max_epochs : Nat
  review_save_dir : String
deriving Repr, DecidableEq

/-- Aggregated test metrics (`system.test_results`). -/
structure Results where
  loss : ℚ
  acc : ℚ
deriving Repr, DecidableEq

/-- The `self.*` fields the flow carries from step to step. -/
structure PState where
  config : Config
  train_data : List Row
  dev_data : List Row
  test_data : List Row
  all_df : List Row
  issues : List Nat
  pre_results : Results
  post_results : Results
  outputs : List ReviewRecord
deriving Repr, DecidableEq

/-- Step `init_system`: `config = load_config(self.config_path)` — the only step
that writes `self.config`. -/
def init_system_step (loaded : Config) (s : PState) : PState :=
  { s with config := loaded }

/-- Step `train_test`: fit, test, and log the pre-correction metrics (the
training outcome is abstracted as the produced metrics `res`). -/
def train_test_step (res : Results) (s : PState) : PState :=
  { s with pre_results := res }

/-- Step `crossval`: concatenate the train/dev/test rows, scatter-write the
out-of-sample probabilities over 3 folds (per-row prediction abstracted as
`f`), and store the combined dataframe with its new `prob` column. -/
def crossval_step (f : Nat → ℚ) (s : PState) : PState :=
  let combined := s.train_data ++ s.dev_data ++ s.test_data
  let probs := crossval_probs combined.length 3 f 0
  let df := (combined.zip probs).map (fun rp => { rp.1 with prob := rp.2 })
  { s with all_df := df }

/-- The label-flip loop of `inspect`: for each flagged `index`,
`all_df.loc[index, 'label'] = 1 - label`. -/
def applyFlips (all_df : List Row) (issues : List Nat) : List Row :=
  issues.foldl
    (fun df index =>
      df.set index { df.getD index defaultRow with
        label := flipLabel (df.getD index defaultRow).label })
    all_df

/-- Step `inspect`: build the two-column probability matrix, rank the label
issues (the detector's flagging threshold abstracted as `t`), store them,
and flip every flagged label. -/
def inspect_step (t : ℚ) (s : PState) : PState :=
  let ranked := find_label_issues (s.all_df.map Row.label)
    (probMatrix (s.all_df.map Row.prob)) t
  { s with issues := ranked, all_df := applyFlips s.all_df ranked }

/-- Step `review`: build one pre-annotation record per flagged index and write
them out. -/
def review_step (s : PState) : PState :=
  { s with outputs := review s.all_df s.issues }

/-- Step `retrain_retest`: re-slice the flipped dataframe into train/dev/test by
the original dataset sizes and log the post-correction metrics `res`. -/
def retrain_retest_step (res : Results) (s : PState) : PState :=
  { s with
      train_data := retrainTrain s.all_df s.train_data.length
      dev_data := retrainDev s.all_df s.train_data.length s.dev_data.length
      test_data := retrainTest s.all_df s.train_data.length s.dev_data.length
      post_results := res }

/-! ### Basic lemmas about the fold split -/

theorem sum_map_range_add_ite (q r : Nat) :
    ∀ k, ((List.range k).map (fun j => q + if j < r then 1 else 0)).sum
      = k * q + min k r := by
  intro k
  induction k with
  | zero => simp
  | succ k ih =>
    rw [List.range_succ, List.map_append, List.sum_append, ih, Nat.succ_mul]
    by_cases h : k < r <;> simp [h] <;> omega

theorem foldSizes_sum (n k : Nat) (hk : 0 < k) : (foldSizes n k).sum = n := by
  have h := sum_map_range_add_ite (n / k) (n % k) k
  have hlt : n % k < k := Nat.mod_lt _ hk
  unfold foldSizes
  rw [h, Nat.min_eq_right (Nat.le_of_lt hlt)]
  exact Nat.div_add_mod n k

theorem splitBySizes_flatten (ss : List Nat) :
    ∀ xs : List Nat, (splitBySizes ss xs).flatten = xs.take ss.sum := by
  induction ss with
  | nil => intro xs; simp [splitBySizes]
  | cons s ss ih =>
    intro xs
    simp only [splitBySizes, List.flatten_cons, ih, List.sum_cons]
    rw [List.take_add, List.take_drop]

theorem kfoldTestSets_flatten (n k : Nat) (hk : 0 < k) :
    (kfoldTestSets n k).flatten = List.range n := by
  rw [kfoldTestSets, splitBySizes_flatten, foldSizes_sum n k hk,
    List.take_of_length_le (by simp)]

theorem length_splitBySizes (ss : List Nat) :
    ∀ xs : List Nat, (splitBySizes ss xs).length = ss.length := by
  induction ss with
  | nil => intro xs; simp [splitBySizes]
  | cons s ss ih => intro xs; simp [splitBySizes, ih]

theorem kfoldTestSets_length (n k : Nat) : (kfoldTestSets n k).length = k := by
  rw [kfoldTestSets, length_splitBySizes]; simp [foldSizes]

theorem kfold_nodup_parts_disjoint (n k : Nat) (hk : 0 < k) :
    (∀ l ∈ kfoldTestSets n k, l.Nodup) ∧
      List.Pairwise List.Disjoint (kfoldTestSets n k) := by
  rw [← List.nodup_flatten, kfoldTestSets_flatten n k hk]
  exact List.nodup_range n

theorem countP_mem_eq_count_flatten (i : Nat) :
    ∀ L : List (List Nat), (∀ l ∈ L, l.Nodup) →
      L.countP (fun t => decide (i ∈ t)) = (L.flatten).count i := by
  intro L
  induction L with
  | nil => simp
  | cons l L ih =>
    intro h
    rw [List.countP_cons, List.flatten_cons, List.count_append,
      ih (fun t ht => h t (by simp [ht]))]
    by_cases hm : i ∈ l
    · rw [List.count_eq_one_of_mem (h l (by simp)) hm]; simp [hm]; omega
    · rw [List.count_eq_zero.mpr hm]; simp [hm]

theorem mem_kfoldTrainSet (n : Nat) (test : List Nat) (i : Nat) :
    i ∈ kfoldTrainSet n test ↔ i < n ∧ i ∉ test := by
  simp [kfoldTrainSet]

theorem countP_not_add_countP (p : α → Bool) (l : List α) :
    l.countP (fun a => !(p a)) + l.countP p = l.length := by
  induction l with
  | nil => simp
  | cons a l ih => by_cases h : p a <;> simp [List.countP_cons, h] <;> omega

/-- C2: for every k-fold partition produced by `crossval` over the n-row
combined dataset, the union of the k test-index sets is exactly `{0..n-1}`,
the test-index sets are pairwise disjoint, and each row appears in test
position in exactly one fold and in training position in the remaining
`k - 1` folds. -/
theorem kfold_partition (n k : Nat) (hk : 0 < k) :
    (∀ i, i ∈ (kfoldTestSets n k).flatten ↔ i < n) ∧
    List.Pairwise List.Disjoint (kfoldTestSets n k) ∧
    ∀ i, i < n →
      (kfoldTestSets n k).countP (fun t => decide (i ∈ t)) = 1 ∧
      (kfoldTestSets n k).countP (fun t => decide (i ∈ kfoldTrainSet n t))
        = k - 1 := by
  obtain ⟨hparts, hdisj⟩ := kfold_nodup_parts_disjoint n k hk
  refine ⟨?_, hdisj, ?_⟩
  · intro i
    rw [kfoldTestSets_flatten n k hk, List.mem_range]
  · intro i hi
    have hcount : (kfoldTestSets n k).countP (fun t => decide (i ∈ t)) = 1 := by
      rw [countP_mem_eq_count_flatten i _ hparts, kfoldTestSets_flatten n k hk]
      exact List.count_eq_one_of_mem (List.nodup_range n) (List.mem_range.mpr hi)
    refine ⟨hcount, ?_⟩
    have hcongr : (kfoldTestSets n k).countP
        (fun t => decide (i ∈ kfoldTrainSet n t))
        = (kfoldTestSets n k).countP (fun t => !(decide (i ∈ t))) := by
      refine List.countP_congr (fun t _ => ?_)
      simp [mem_kfoldTrainSet, hi]
    have hsum := countP_not_add_countP
      (fun t => decide (i ∈ t)) (kfoldTestSets n k)
    rw [kfoldTestSets_length] at hsum
    rw [hcongr]
    omega

/-- Witness for C2 at `n = 7`, `k = 3`. -/
theorem kfold_partition_witness :
    (5 ∈ (kfoldTestSets 7 3).flatten ↔ 5 < 7) ∧
    (kfoldTestSets 7 3).countP (fun t => decide (4 ∈ t)) = 1 ∧
    (kfoldTestSets 7 3).countP (fun t => decide (4 ∈ kfoldTrainSet 7 t)) = 2 :=
  ⟨(kfold_partition 7 3 (by decide)).1 5,
   ((kfold_partition 7 3 (by decide)).2.2 4 (by decide)).1,
   ((kfold_partition 7 3 (by decide)).2.2 4 (by decide)).2⟩

/-! ### The scatter write hits every index exactly once -/

theorem foldl_writeIdxs_flatten (f : Nat → α) :
    ∀ (L : List (List Nat)) (arr : List α),
      L.foldl (writeIdxs f) arr = writeIdxs f arr L.flatten := by
  intro L
  induction L with
  | nil => intro arr; simp [writeIdxs]
  | cons l L ih =>
    intro arr
    rw [List.foldl_cons, ih, List.flatten_cons]
    simp only [writeIdxs, List.foldl_append]

theorem writeIdxs_getElem? (f : Nat → α) (idxs : List Nat) :
    ∀ (arr : List α) (j : Nat),
      (writeIdxs f arr idxs)[j]? =
        if j ∈ idxs ∧ j < arr.length then some (f j) else arr[j]? := by
  induction idxs with
  | nil => intro arr j; simp [writeIdxs]
  | cons i idxs ih =>
    intro arr j
    have hstep : writeIdxs f arr (i :: idxs)
        = writeIdxs f (arr.set i (f i)) idxs := rfl
    rw [hstep, ih, List.length_set, List.getElem?_set]
    by_cases hjl : j < arr.length
    · by_cases hji : j ∈ idxs
      · simp [hji, hjl]
      · by_cases hij : i = j
        · subst hij; simp [hji, hjl]
        · have hji2 : ¬ j = i := fun h => hij h.symm
          simp [hji, hij, hji2]
    · have hnone : arr[j]? = none := List.getElem?_eq_none (by omega)
      by_cases hij : i = j
      · subst hij; simp [hjl, hnone]
      · simp [hij, hjl, hnone]

theorem writeIdxs_range (f : Nat → α) (n : Nat) (arr : List α)
    (h : arr.length = n) :
    writeIdxs f arr (List.range n) = (List.range n).map f := by
  refine List.ext_getElem? (fun j => ?_)
  rw [writeIdxs_getElem?]
  by_cases hj : j < n
  · simp [List.mem_range, hj, h]
  · have h1 : arr[j]? = none := List.getElem?_eq_none (by omega)
    have h2 : ((List.range n).map f)[j]? = none :=
      List.getElem?_eq_none (by simp; omega)
    simp [List.mem_range, hj, h1, h2]

/-- C1: on the n-row combined dataset with `k = 3` folds, the `crossval`
scatter write fills every one of the `n` positions exactly once (each index
occurs exactly once across the fold test sets), and the resulting array is
exactly the per-row predictions — no position keeps the `np.zeros`
initial value `d`, whatever `d` is. -/
theorem crossval_probs_spec (n : Nat) (f : Nat → α) (d : α) :
    crossval_probs n 3 f d = (List.range n).map f ∧
    ∀ i, i < n → ((kfoldTestSets n 3).flatten).count i = 1 := by
  constructor
  · rw [crossval_probs, foldl_writeIdxs_flatten,
      kfoldTestSets_flatten n 3 (by omega),
      writeIdxs_range f n _ (List.length_replicate n d)]
  · intro i hi
    rw [kfoldTestSets_flatten n 3 (by omega)]
    exact List.count_eq_one_of_mem (List.nodup_range n) (List.mem_range.mpr hi)

/-- Witness for C1 at `n = 5`: the probability array is the predictions
array, and index 2 is written exactly once. -/
theorem crossval_probs_spec_witness :
    crossval_probs 5 3 (fun i => (i : ℚ)) 0
        = (List.range 5).map (fun i => (i : ℚ)) ∧
    ((kfoldTestSets 5 3).flatten).count 2 = 1 :=
  ⟨(crossval_probs_spec 5 (fun i => (i : ℚ)) 0).1,
   (crossval_probs_spec 5 (fun i => (i : ℚ)) 0).2 2 (by decide)⟩

/-- C4: for a row with a binary label, applying the `inspect` label flip
twice restores the original label — the flip is an involution on `{0, 1}`. -/
theorem flipLabel_involution (label : Int) (h : label = 0 ∨ label = 1) :
    flipLabel (flipLabel label) = label := by
  unfold flipLabel; omega

/-- Witness for C4 at `label = 1`. -/
theorem flipLabel_involution_witness : flipLabel (flipLabel 1) = 1 :=
  flipLabel_involution 1 (Or.inr rfl)

/-- C7: every row of the probability matrix `inspect` hands to the detector
sums exactly to 1, matching the detector's rows-by-2 input contract. -/
theorem probMatrix_rows_sum_one (probs : List ℚ) :
    ∀ r ∈ probMatrix probs, r.1 + r.2 = 1 := by
  intro r hr
  simp only [probMatrix, List.mem_map] at hr
  obtain ⟨p, _, rfl⟩ := hr
  ring

/-- Witness for C7 at `probs = [1/3]`. -/
theorem probMatrix_rows_sum_one_witness :
    ((1 : ℚ) - 1/3, (1/3 : ℚ)).1 + ((1 : ℚ) - 1/3, (1/3 : ℚ)).2 = 1 :=
  probMatrix_rows_sum_one [1/3] _ (by simp [probMatrix])

/-- C5: the ranked issue-index list is duplicate-free and every index lies
inside the row-index range of the combined dataframe: it is a permutation of
a subset of the full row-index set. -/
theorem find_label_issues_spec (labels : List Int) (prob : List (ℚ × ℚ))
    (threshold : ℚ) :
    (find_label_issues labels prob threshold).Nodup ∧
    ∀ i ∈ find_label_issues labels prob threshold, i < labels.length := by
  unfold find_label_issues
  have hperm := List.perm_insertionSort
    (fun i j => selfConfidence (labels.getD i 0) (prob.getD i (0, 0))
      ≤ selfConfidence (labels.getD j 0) (prob.getD j (0, 0)))
    ((List.range labels.length).filter
      (fun i => decide (selfConfidence (labels.getD i 0) (prob.getD i (0, 0))
        < threshold)))
  constructor
  · exact hperm.nodup_iff.mpr ((List.nodup_range _).filter _)
  · intro i hi
    have := hperm.mem_iff.mp hi
    have hmem := List.mem_of_mem_filter this
    exact List.mem_range.mp hmem

/-- Witness for C5: labels `[1, 0]` with both rows flagged; the flagged
index 0 is in range and the list is duplicate-free. -/
theorem find_label_issues_spec_witness :
    (find_label_issues [1, 0] [(0, 0), (0, 0)] 1).Nodup ∧ 0 < 2 :=
  ⟨(find_label_issues_spec [1, 0] [(0, 0), (0, 0)] 1).1,
   (find_label_issues_spec [1, 0] [(0, 0), (0, 0)] 1).2 0 (by decide)⟩

theorem foldl_append_singleton_eq_map (g : α → β) (l : List α) :
    ∀ acc : List β,
      l.foldl (fun outputs i => outputs ++ [g i]) acc = acc ++ l.map g := by
  induction l with
  | nil => intro acc; simp
  | cons i l ih => intro acc; simp [ih]

theorem review_eq_map (all_df : List Row) (issues : List Nat) :
    review all_df issues = issues.map (reviewRecord all_df) := by
  rw [review, foldl_append_singleton_eq_map, List.nil_append]

/-- C3: the `review` step emits exactly one record per ranked issue index, in
the ranking's order (the output is the map of the record constructor over the
ranking), and the j-th record's `choices` is `["Positive"]` iff the j-th
flagged row's (already flipped) label is 1, else `["Negative"]`. -/
theorem review_spec (all_df : List Row) (issues : List Nat) :
    review all_df issues = issues.map (reviewRecord all_df) ∧
    (review all_df issues).length = issues.length ∧
    ∀ j, j < issues.length →
      (recordChoices ((review all_df issues).getD j (reviewRecord all_df 0))
          = ["Positive"]
        ↔ (all_df.getD (issues.getD j 0) defaultRow).label = 1) ∧
      (recordChoices ((review all_df issues).getD j (reviewRecord all_df 0))
          = ["Negative"]
        ↔ (all_df.getD (issues.getD j 0) defaultRow).label ≠ 1) := by
  have hmap := review_eq_map all_df issues
  refine ⟨hmap, by rw [hmap]; simp, ?_⟩
  intro j hj
  have hj' : j < (issues.map (reviewRecord all_df)).length := by simpa using hj
  have hget : (review all_df issues).getD j (reviewRecord all_df 0)
      = reviewRecord all_df (issues.getD j 0) := by
    rw [hmap, List.getD_eq_getElem _ _ hj', List.getElem_map,
      List.getD_eq_getElem _ _ hj]
  rw [hget]
  by_cases hl : (all_df.getD (issues.getD j 0) defaultRow).label = 1
  · simp [reviewRecord, recordChoices, hl]
  · simp [reviewRecord, recordChoices, hl]

/-- Witness for C3: two rows, issues `[1, 0]`, checked at `j = 0`. -/
theorem review_spec_witness :
    (recordChoices ((review [{ review := "good", label := 1, prob := 0 },
        { review := "bad", label := 0, prob := 0 }] [1, 0]).getD 0
        (reviewRecord [{ review := "good", label := 1, prob := 0 },
          { review := "bad", label := 0, prob := 0 }] 0)) = ["Negative"]
      ↔ (([{ review := "good", label := 1, prob := 0 },
          { review := "bad", label := 0, prob := 0 }] :
            List Row).getD (([1, 0] : List Nat).getD 0 0) defaultRow).label
          ≠ 1) :=
  ((review_spec [{ review := "good", label := 1, prob := 0 },
      { review := "bad", label := 0, prob := 0 }] [1, 0]).2.2 0 (by decide)).2

theorem retrain_slices_append (all_df : List α) (ts ds : Nat) :
    retrainTrain all_df ts ++ retrainDev all_df ts ds
      ++ retrainTest all_df ts ds = all_df := by
  rw [retrainTrain, retrainDev, retrainTest, ← List.drop_drop,
    List.append_assoc, List.take_append_drop, List.take_append_drop]

/-- C10: the three `retrain_retest` slices of the flipped dataframe assign
every row to exactly one of the new train/dev/test datasets: their
concatenation in order is the whole dataframe, and on row indices the three
slices are pairwise disjoint with each index landing in exactly one slice. -/
theorem retrain_partition (all_df : List Row) (ts ds : Nat) :
    retrainTrain all_df ts ++ retrainDev all_df ts ds
      ++ retrainTest all_df ts ds = all_df ∧
    List.Pairwise List.Disjoint
      [retrainTrain (List.range all_df.length) ts,
       retrainDev (List.range all_df.length) ts ds,
       retrainTest (List.range all_df.length) ts ds] ∧
    ∀ i, i < all_df.length →
      ([retrainTrain (List.range all_df.length) ts,
        retrainDev (List.range all_df.length) ts ds,
        retrainTest (List.range all_df.length) ts ds].countP
          (fun s => decide (i ∈ s))) = 1 := by
  have hidx : retrainTrain (List.range all_df.length) ts
      ++ retrainDev (List.range all_df.length) ts ds
      ++ retrainTest (List.range all_df.length) ts ds
      = List.range all_df.length := retrain_slices_append _ ts ds
  have hflat : ([retrainTrain (List.range all_df.length) ts,
      retrainDev (List.range all_df.length) ts ds,
      retrainTest (List.range all_df.length) ts ds] :
        List (List Nat)).flatten = List.range all_df.length := by
    simpa using hidx
  have hnodup : (([retrainTrain (List.range all_df.length) ts,
      retrainDev (List.range all_df.length) ts ds,
      retrainTest (List.range all_df.length) ts ds] :
        List (List Nat)).flatten).Nodup := by
    rw [hflat]; exact List.nodup_range _
  obtain ⟨hparts, hdisj⟩ := List.nodup_flatten.mp hnodup
  refine ⟨retrain_slices_append all_df ts ds, hdisj, ?_⟩
  intro i hi
  rw [countP_mem_eq_count_flatten i _ hparts, hflat]
  exact List.count_eq_one_of_mem (List.nodup_range _) (List.mem_range.mpr hi)

/-- Witness for C10 on a 4-row dataframe with `ts = 2`, `ds = 1`. -/
theorem retrain_partition_witness :
    retrainTrain [defaultRow, defaultRow, defaultRow, defaultRow] 2
      ++ retrainDev [defaultRow, defaultRow, defaultRow, defaultRow] 2 1
      ++ retrainTest [defaultRow, defaultRow, defaultRow, defaultRow] 2 1
      = [defaultRow, defaultRow, defaultRow, defaultRow] ∧
    ([retrainTrain (List.range 4) 2, retrainDev (List.range 4) 2 1,
      retrainTest (List.range 4) 2 1].countP (fun s => decide (3 ∈ s))) = 1 :=
  ⟨(retrain_partition [defaultRow, defaultRow, defaultRow, defaultRow] 2 1).1,
   (retrain_partition [defaultRow, defaultRow, defaultRow, defaultRow]
      2 1).2.2 3 (by decide)⟩

/-- C6: the step relation is exactly the strict linear sequence
start → init_system → train_test → crossval → inspect → review →
retrain_retest → end: consecutive elements of `pipelineOrder` are linked by
`stageNext`, every stage occurs exactly once in the chain, `end` has no
successor, and no transition outside that chain is ever taken (the
transitions are exactly the consecutive pairs of the chain). -/
theorem pipeline_linear :
    List.Chain' (fun a b => stageNext a = some b) pipelineOrder ∧
    pipelineOrder.Nodup ∧
    (∀ s : Stage, s ∈ pipelineOrder) ∧
    stageNext Stage.end_ = none ∧
    (∀ s t : Stage, stageNext s = some t
      ↔ (s, t) ∈ pipelineOrder.zip pipelineOrder.tail) := by
  refine ⟨?_, by decide, by decide, rfl, by decide⟩
  simp [pipelineOrder, List.chain'_cons, stageNext]

/-- C8: the three process-wide seeds are fixed exactly once, in `start`,
and no later stage re-seeds; consequently two runs on the same configuration
and input data — i.e. the same `rest` — give identical results whatever RNG
states the two processes started from. -/
theorem seeds_fixed_once (rest : RngState → α) (r1 r2 : RngState) :
    runPipeline rest r1 = runPipeline rest r2 ∧
    seedCalls Stage.start
      = [SeedCall.python 42, SeedCall.numpy 42, SeedCall.torch 42] ∧
    ∀ s : Stage, s ≠ Stage.start → seedCalls s = [] := by
  refine ⟨rfl, rfl, ?_⟩
  intro s hs
  cases s <;> first | exact absurd rfl hs | rfl

/-- Witness for C8: two runs from distinct initial RNG states agree, and
`crossval` performs no seeding call. -/
theorem seeds_fixed_once_witness :
    runPipeline (fun r => r.numpyState) (RngState.mk 0 1 2)
      = runPipeline (fun r => r.numpyState) (RngState.mk 7 8 9) ∧
    seedCalls Stage.crossval = [] :=
  ⟨(seeds_fixed_once (fun r => r.numpyState) (RngState.mk 0 1 2)
      (RngState.mk 7 8 9)).1,
   (seeds_fixed_once (fun r => r.numpyState) (RngState.mk 0 1 2)
      (RngState.mk 7 8 9)).2.2 Stage.crossval (by decide)⟩

/-- C9: the configuration is read-only after `init_system` loads it: every
later step (`train_test`, `crossval`, `inspect`, `review`, `retrain_retest`)
leaves `self.config` exactly as loaded, so every read observes the values
established at load time. -/
theorem config_read_only (loaded : Config) (s : PState) (res res' : Results)
    (f : Nat → ℚ) (t : ℚ) :
    (init_system_step loaded s).config = loaded ∧
    (train_test_step res s).config = s.config ∧
    (crossval_step f s).config = s.config ∧
    (inspect_step t s).config = s.config ∧
    (review_step s).config = s.config ∧
    (retrain_retest_step res' s).config = s.config ∧
    (retrain_retest_step res' (review_step (inspect_step t (crossval_step f
      (train_test_step res (init_system_step loaded s)))))).config
      = loaded :=
  ⟨rfl, rfl, rfl, rfl, rfl, rfl, rfl⟩
